import Mathlib

/-
Formal model of the cargo-sweep eviction engine.

The repository ships src/main.rs, which delegates the actual eviction work
to the modules fingerprint, stamp and util (not present in the source
tree).  The policy, parser and executor definitions below are therefore
modelled from the specification of those components; the definitions for
argument handling, project discovery and control flow are translated
directly from src/main.rs.
-/

namespace CargoSweep

/-- One fingerprint record (spec section 3, CompilationUnit).  The id is the
directory name in the bookkeeping store, the timestamp is that of the
bookkeeping record, and the toolchain may be unresolved (none). -/
structure CompilationUnit where
  unit_id : String
  last_modified : Nat
  toolchain : Option String
  profile : String
deriving DecidableEq

/-- A CompilationUnit together with its full file set, its bookkeeping
record path and the summed byte size (spec section 3, ArtifactGroup). -/
structure ArtifactGroup where
  unit : CompilationUnit
  files : List String
  record : String
  total_size : Nat
deriving DecidableEq

/-- Modelled from the spec: the age policy of fingerprint.rs
(remove_older_than).  A group is selected for removal exactly when its
unit last_modified timestamp is strictly older than now - cutoff; a unit
exactly at the boundary is kept. -/
def remove_older_than (now cutoff : Nat) (gs : List ArtifactGroup) : List ArtifactGroup :=
  gs.filter (fun g => decide (g.unit.last_modified < now - cutoff))

/-- Modelled from the spec: the toolchain policy of fingerprint.rs
(remove_not_built_with).  A group is selected for removal exactly when its
toolchain is resolved and is not a member of the keep set; a group with an
unresolved toolchain is always kept. -/
def remove_not_built_with (keep : List String) (gs : List ArtifactGroup) : List ArtifactGroup :=
  gs.filter (fun g =>
    match g.unit.toolchain with
    | none => false
    | some t => !(keep.contains t))

/-- C3: the age policy removes a group if and only if its last_modified is
strictly below now - cutoff; in particular a group exactly at the cutoff
boundary is never removed. -/
theorem age_policy_strict_boundary (now cutoff : Nat) (gs : List ArtifactGroup)
    (g : ArtifactGroup) :
    g ∈ remove_older_than now cutoff gs ↔
      g ∈ gs ∧ g.unit.last_modified < now - cutoff := by
  simp [remove_older_than, List.mem_filter]

/-- C2: the toolchain policy removes exactly the groups whose toolchain is
resolved and outside the keep set, and a group with unresolved toolchain is
never removed, whatever the keep set. -/
theorem toolchain_policy_spec (keep : List String) (gs : List ArtifactGroup)
    (g : ArtifactGroup) :
    (g ∈ remove_not_built_with keep gs ↔
      g ∈ gs ∧ ∃ t, g.unit.toolchain = some t ∧ t ∉ keep) ∧
    (g.unit.toolchain = none → g ∉ remove_not_built_with keep gs) := by
  constructor
  · simp only [remove_not_built_with, List.mem_filter]
    constructor
    · rintro ⟨hg, hb⟩
      refine ⟨hg, ?_⟩
      cases htc : g.unit.toolchain with
      | none => rw [htc] at hb; simp at hb
      | some t =>
        rw [htc] at hb
        simp only [Bool.not_eq_true'] at hb
        exact ⟨t, rfl, by simpa [List.contains, List.elem_eq_mem] using hb⟩
    · rintro ⟨hg, t, htc, hmem⟩
      refine ⟨hg, ?_⟩
      rw [htc]
      simpa [List.contains, List.elem_eq_mem] using hmem
  · intro hnone hmem
    simp only [remove_not_built_with, List.mem_filter] at hmem
    rw [hnone] at hmem
    simp at hmem

/-- Sample group used to evaluate the policies on concrete inputs. -/
def gAt (i : String) (lm : Nat) (tc : Option String) (sz : Nat) : ArtifactGroup :=
  { unit := { unit_id := i, last_modified := lm, toolchain := tc, profile := "debug" }
    files := [], record := i, total_size := sz }

/-- C2 witness: a group with unresolved toolchain is kept even by the empty
keep set. -/
theorem toolchain_policy_spec_witness :
    (gAt "u" 5 none 7).unit.toolchain = none ∧
      gAt "u" 5 none 7 ∉ remove_not_built_with [] [gAt "u" 5 none 7] :=
  ⟨rfl, (toolchain_policy_spec [] [gAt "u" 5 none 7] (gAt "u" 5 none 7)).2 rfl⟩

/-- C6 counterexample: with now = 10 the group modified at 7 is removed
under cutoff 2 but not under cutoff 4, so for cutoffs d1 = 2 < d2 = 4 the
remove set under d2 is not a superset of the remove set under d1. -/
theorem age_superset_counterexample :
    2 < 4 ∧ gAt "a" 7 none 1 ∈ remove_older_than 10 2 [gAt "a" 7 none 1] ∧
      gAt "a" 7 none 1 ∉ remove_older_than 10 4 [gAt "a" 7 none 1] := by
  refine ⟨by decide, ?_, ?_⟩ <;> simp [remove_older_than, gAt]

/-- C6 amended: for cutoffs d1 < d2 the remove set under the larger cutoff
d2 is a subset of the remove set under d1 (increasing the cutoff never
increases the removed set). -/
theorem age_policy_monotone_subset (now d1 d2 : Nat) (gs : List ArtifactGroup)
    (h : d1 < d2) :
    remove_older_than now d2 gs ⊆ remove_older_than now d1 gs := by
  intro g hg
  rw [age_policy_strict_boundary] at hg ⊢
  exact ⟨hg.1, lt_of_lt_of_le hg.2 (Nat.sub_le_sub_left (le_of_lt h) now)⟩

/-- C6 witness: the subset inclusion evaluated at now = 10, d1 = 2, d2 = 4
on a concrete group list. -/
theorem age_policy_monotone_subset_witness :
    2 < 4 ∧ remove_older_than 10 4 [gAt "a" 7 none 1] ⊆
      remove_older_than 10 2 [gAt "a" 7 none 1] :=
  ⟨by decide, age_policy_monotone_subset 10 2 4 [gAt "a" 7 none 1] (by decide)⟩

/-- Modelled from the spec: the ordering used by the size-budget policy,
last_modified ascending with ties broken by unit_id ascending. -/
def ageLE (a b : ArtifactGroup) : Prop :=
  a.unit.last_modified < b.unit.last_modified ∨
    (a.unit.last_modified = b.unit.last_modified ∧ a.unit.unit_id ≤ b.unit.unit_id)

instance : DecidableRel ageLE := fun a b => by
  unfold ageLE
  exact inferInstance

instance : IsTotal ArtifactGroup ageLE :=
  ⟨fun a b => by
    unfold ageLE
    rcases lt_trichotomy a.unit.last_modified b.unit.last_modified with h | h | h
    · exact Or.inl (Or.inl h)
    · rcases le_total a.unit.unit_id b.unit.unit_id with h2 | h2
      · exact Or.inl (Or.inr ⟨h, h2⟩)
      · exact Or.inr (Or.inr ⟨h.symm, h2⟩)
    · exact Or.inr (Or.inl h)⟩

instance : IsTrans ArtifactGroup ageLE :=
  ⟨fun a b c hab hbc => by
    unfold ageLE at hab hbc ⊢
    rcases hab with h1 | ⟨e1, l1⟩ <;> rcases hbc with h2 | ⟨e2, l2⟩
    · exact Or.inl (lt_trans h1 h2)
    · exact Or.inl (by rw [← e2]; exact h1)
    · exact Or.inl (by rw [e1]; exact h2)
    · exact Or.inr ⟨e1.trans e2, le_trans l1 l2⟩⟩

/-- Total byte size of a list of groups. -/
def sum_sizes (gs : List ArtifactGroup) : Nat :=
  (gs.map (fun g => g.total_size)).sum

@[simp]
theorem sum_sizes_nil : sum_sizes [] = 0 := rfl

@[simp]
theorem sum_sizes_cons (g : ArtifactGroup) (gs : List ArtifactGroup) :
    sum_sizes (g :: gs) = g.total_size + sum_sizes gs := by
  simp [sum_sizes]

/-- Modelled from the spec: the greedy loop of the size-budget policy.
Walking the groups oldest first, it stops as soon as the running remaining
total is at or under the budget or no groups remain, and otherwise marks
the head group and subtracts its size from the remaining total. -/
def greedy_remove (budget : Nat) : Nat → List ArtifactGroup → List ArtifactGroup
  | _, [] => []
  | rem, g :: rest =>
    if rem ≤ budget then [] else g :: greedy_remove budget (rem - g.total_size) rest

/-- Modelled from the spec: the size-budget policy of fingerprint.rs
(remove_older_until_fits).  If the total size already fits the budget
nothing is removed; otherwise the groups are sorted oldest first (ties by
unit_id) and removed greedily until the remaining total fits. -/
def remove_older_until_fits (budget : Nat) (gs : List ArtifactGroup) : List ArtifactGroup :=
  let total := sum_sizes gs
  if total ≤ budget then [] else greedy_remove budget total (List.insertionSort ageLE gs)

theorem greedy_remove_take (budget : Nat) (rem : Nat) (l : List ArtifactGroup) :
    greedy_remove budget rem l = l.take (greedy_remove budget rem l).length := by
  induction l generalizing rem with
  | nil => simp [greedy_remove]
  | cons g rest ih =>
    by_cases h : rem ≤ budget
    · simp [greedy_remove, h]
    · simp only [greedy_remove, if_neg h, List.length_cons, List.take_succ_cons,
        List.cons.injEq, true_and]
      exact ih _

theorem greedy_remove_bound (budget : Nat) (rem : Nat) (l : List ArtifactGroup) :
    rem - sum_sizes (greedy_remove budget rem l) ≤ budget ∨
      (greedy_remove budget rem l).length = l.length := by
  induction l generalizing rem with
  | nil => right; simp [greedy_remove]
  | cons g rest ih =>
    by_cases h : rem ≤ budget
    · left; simp [greedy_remove, h]
    · rcases ih (rem - g.total_size) with h2 | h2
      · left
        simp only [greedy_remove, if_neg h, sum_sizes_cons]
        omega
      · right; simp [greedy_remove, h, h2]

theorem greedy_remove_min (budget : Nat) (rem : Nat) (l : List ArtifactGroup) :
    ∀ j, j < (greedy_remove budget rem l).length →
      budget < rem - sum_sizes (l.take j) := by
  induction l generalizing rem with
  | nil => simp [greedy_remove]
  | cons g rest ih =>
    intro j hj
    by_cases h : rem ≤ budget
    · simp [greedy_remove, h] at hj
    · cases j with
      | zero => simpa using Nat.lt_of_not_le h
      | succ j =>
        simp only [greedy_remove, if_neg h, List.length_cons,
          Nat.succ_lt_succ_iff] at hj
        have hrec := ih (rem - g.total_size) j hj
        simp only [List.take_succ_cons, sum_sizes_cons]
        omega

/-- C1: the size-budget policy removes nothing when the total fits the
budget; otherwise its remove set is a prefix of the groups sorted oldest
first (ties by unit_id ascending), it stops as soon as the remaining total
fits the budget or all groups are marked, and every strictly shorter
prefix would leave the remaining total above the budget, so the remove set
is exactly the minimal oldest-first prefix. -/
theorem size_budget_oldest_first_minimal (budget : Nat) (gs : List ArtifactGroup) :
    (sum_sizes gs ≤ budget → remove_older_until_fits budget gs = []) ∧
    List.Sorted ageLE (List.insertionSort ageLE gs) ∧
    List.Perm (List.insertionSort ageLE gs) gs ∧
    remove_older_until_fits budget gs =
      (List.insertionSort ageLE gs).take (remove_older_until_fits budget gs).length ∧
    (sum_sizes gs - sum_sizes (remove_older_until_fits budget gs) ≤ budget ∨
      (remove_older_until_fits budget gs).length = gs.length) ∧
    ∀ j, j < (remove_older_until_fits budget gs).length →
      budget < sum_sizes gs - sum_sizes ((List.insertionSort ageLE gs).take j) := by
  refine ⟨?_, List.sorted_insertionSort ageLE gs, List.perm_insertionSort ageLE gs,
    ?_, ?_, ?_⟩
  · intro h; simp [remove_older_until_fits, h]
  · by_cases h : sum_sizes gs ≤ budget
    · simp [remove_older_until_fits, h]
    · simp only [remove_older_until_fits, if_neg h]
      exact greedy_remove_take _ _ _
  · by_cases h : sum_sizes gs ≤ budget
    · left; simp [remove_older_until_fits, h]
    · simp only [remove_older_until_fits, if_neg h]
      rcases greedy_remove_bound budget (sum_sizes gs) (List.insertionSort ageLE gs)
        with h2 | h2
      · exact Or.inl h2
      · exact Or.inr (h2.trans (List.perm_insertionSort ageLE gs).length_eq)
  · by_cases h : sum_sizes gs ≤ budget
    · simp [remove_older_until_fits, h]
    · simp only [remove_older_until_fits, if_neg h]
      exact greedy_remove_min budget (sum_sizes gs) _

/-- The three-group scenario of the spec: 10 MB modified at 7, 20 MB
modified at 9, 5 MB modified at 5. -/
def scenarioGroups : List ArtifactGroup :=
  [gAt "b" 7 none 10485760, gAt "c" 9 none 20971520, gAt "a" 5 none 5242880]

/-- C1 witness: with a 15 MB budget the policy removes all three scenario
groups oldest first, and every shorter prefix leaves more than 15 MB. -/
theorem size_budget_oldest_first_minimal_witness :
    remove_older_until_fits 15728640 scenarioGroups =
      [gAt "a" 5 none 5242880, gAt "b" 7 none 10485760, gAt "c" 9 none 20971520] ∧
    ∀ j, j < (remove_older_until_fits 15728640 scenarioGroups).length →
      15728640 < sum_sizes scenarioGroups -
        sum_sizes ((List.insertionSort ageLE scenarioGroups).take j) :=
  ⟨by decide, (size_budget_oldest_first_minimal 15728640 scenarioGroups).2.2.2.2.2⟩

/-- Modelled from the spec: deletion of a single group by the executor.
Deletion is atomic at the group level: when the record and all the files
of the group can be removed they all disappear from the filesystem and the
full group size is credited; otherwise the filesystem is left untouched
and nothing is credited. -/
def delete_group (removable : String → Bool) (fs : List String) (g : ArtifactGroup) :
    List String × Nat :=
  if (g.record :: g.files).all removable then
    (fs.filter (fun p => !(g.files.contains p) && !(p == g.record)), g.total_size)
  else (fs, 0)

/-- Modelled from the spec: one executor step over the running pair of
filesystem and credited bytes; in dry-run mode (deletion false) it only
accumulates the group size. -/
def executor_step (removable : String → Bool) (deletion : Bool)
    (st : List String × Nat) (g : ArtifactGroup) : List String × Nat :=
  if deletion then
    let r := delete_group removable st.1 g
    (r.1, st.2 + r.2)
  else (st.1, st.2 + g.total_size)

/-- Modelled from the spec: the deletion executor applied to the remove
set, dry-run when deletion is false. -/
def run_executor (deletion : Bool) (removable : String → Bool) (fs : List String)
    (gs : List ArtifactGroup) : List String × Nat :=
  gs.foldl (executor_step removable deletion) (fs, 0)

/-- C4: per-group atomicity of the executor.  When the whole group is
removable, exactly its files and record disappear and its full size is
credited; when any part is not removable, the filesystem is unchanged,
nothing is credited, and the executor continues with the remaining groups
as if the failed group were absent. -/
theorem executor_group_atomicity (removable : String → Bool) (fs : List String)
    (g : ArtifactGroup) (rest : List ArtifactGroup) :
    ((g.record :: g.files).all removable = true →
      (∀ p, p ∈ (delete_group removable fs g).1 ↔
        p ∈ fs ∧ p ∉ g.files ∧ p ≠ g.record) ∧
      (delete_group removable fs g).2 = g.total_size) ∧
    ((g.record :: g.files).all removable = false →
      (delete_group removable fs g).1 = fs ∧
      (delete_group removable fs g).2 = 0 ∧
      run_executor true removable fs (g :: rest) = run_executor true removable fs rest) := by
  constructor
  · intro h
    constructor
    · intro p
      simp only [delete_group, if_pos h, List.mem_filter, Bool.and_eq_true,
        Bool.not_eq_true', List.contains, List.elem_eq_mem, decide_eq_false_iff_not,
        beq_eq_false_iff_ne, ne_eq]
    · simp [delete_group, h]
  · intro h
    have h1 : (delete_group removable fs g).1 = fs := by simp [delete_group, h]
    have h2 : (delete_group removable fs g).2 = 0 := by simp [delete_group, h]
    refine ⟨h1, h2, ?_⟩
    simp [run_executor, executor_step, h1, h2]

/-- A file predicate under which the path "locked" cannot be removed. -/
def removable0 : String → Bool := fun p => !(p == "locked")

/-- A group one of whose files is the unremovable path "locked". -/
def gFail : ArtifactGroup :=
  { unit := { unit_id := "f", last_modified := 1, toolchain := none, profile := "debug" }
    files := ["f1", "locked"], record := "r0", total_size := 9 }

/-- C4 witness: on a concrete filesystem the partially unremovable group
leaves the filesystem untouched, is credited zero bytes, and does not stop
the run. -/
theorem executor_group_atomicity_witness :
    (gFail.record :: gFail.files).all removable0 = false ∧
    ((delete_group removable0 ["f1", "locked", "r0", "x"] gFail).1 =
        ["f1", "locked", "r0", "x"] ∧
      (delete_group removable0 ["f1", "locked", "r0", "x"] gFail).2 = 0 ∧
      run_executor true removable0 ["f1", "locked", "r0", "x"] [gFail] =
        run_executor true removable0 ["f1", "locked", "r0", "x"] []) :=
  ⟨by decide,
    (executor_group_atomicity removable0 ["f1", "locked", "r0", "x"] gFail []).2
      (by decide)⟩

theorem run_executor_dry (removable : String → Bool) (gs : List ArtifactGroup) :
    ∀ st : List String × Nat,
      gs.foldl (executor_step removable false) st = (st.1, st.2 + sum_sizes gs) := by
  induction gs with
  | nil => intro st; simp
  | cons g rest ih =>
    intro st
    simp only [List.foldl_cons, executor_step, if_neg (Bool.false_ne_true),
      ih (st.1, st.2 + g.total_size), sum_sizes_cons]
    rw [Nat.add_assoc]

theorem run_executor_apply_ok (removable : String → Bool) (gs : List ArtifactGroup)
    (hall : ∀ g ∈ gs, (g.record :: g.files).all removable = true) :
    ∀ st : List String × Nat,
      (gs.foldl (executor_step removable true) st).2 = st.2 + sum_sizes gs := by
  induction gs with
  | nil => intro st; simp
  | cons g rest ih =>
    intro st
    have hg : (g.record :: g.files).all removable = true := hall g (by simp)
    have hrest : ∀ g ∈ rest, (g.record :: g.files).all removable = true :=
      fun g hgm => hall g (by simp [hgm])
    simp only [List.foldl_cons, executor_step, if_pos rfl, delete_group, if_pos hg,
      sum_sizes_cons]
    rw [ih hrest]
    simp [Nat.add_assoc]

/-- C5: a dry run leaves the filesystem untouched, and when every group of
the remove set is fully removable the byte total of the dry run equals the
byte total of an apply run on the same filesystem. -/
theorem dry_run_purity (removable : String → Bool) (fs : List String)
    (gs : List ArtifactGroup)
    (hall : ∀ g ∈ gs, (g.record :: g.files).all removable = true) :
    (run_executor false removable fs gs).1 = fs ∧
    (run_executor false removable fs gs).2 = (run_executor true removable fs gs).2 := by
  unfold run_executor
  rw [run_executor_dry removable gs (fs, 0), run_executor_apply_ok removable gs hall (fs, 0)]
  exact ⟨rfl, rfl⟩

/-- C5 witness: the dry run over the scenario groups does not change the
filesystem and reports the same byte total as the apply run. -/
theorem dry_run_purity_witness :
    (run_executor false (fun _ => true) ["x"] scenarioGroups).1 = ["x"] ∧
    (run_executor false (fun _ => true) ["x"] scenarioGroups).2 =
      (run_executor true (fun _ => true) ["x"] scenarioGroups).2 :=
  dry_run_purity (fun _ => true) ["x"] scenarioGroups (by decide)

/-- One immediate child of the bookkeeping directory: either a candidate
unit directory with its optional record file content and its modification
time, or a stray entry that is not a unit record. -/
inductive CacheEntry where
  | dir (name : String) (record : Option String) (mtime : Nat)
  | stray (name : String)
deriving DecidableEq

/-- Modelled from the spec: one candidate unit directory becomes a unit
keyed by the directory name, with the toolchain recovered from the record
when it is present and parses; a stray entry is skipped. -/
def unit_of_entry (parse_record : String → Option String) :
    CacheEntry → Option CompilationUnit
  | CacheEntry.dir n r m =>
    some { unit_id := n, last_modified := m, toolchain := r.bind parse_record,
           profile := "" }
  | CacheEntry.stray _ => none

/-- Strict lexicographic order on character lists, by code point. -/
def charListLt : List Char → List Char → Bool
  | _, [] => false
  | [], _ :: _ => true
  | a :: as, b :: bs =>
    if a.toNat < b.toNat then true
    else if b.toNat < a.toNat then false
    else charListLt as bs

/-- Strict lexicographic order on strings, by code point. -/
def string_lt (s t : String) : Bool :=
  charListLt s.data t.data

/-- Ordering of the parser output, by unit_id ascending. -/
def idLE (u v : CompilationUnit) : Prop :=
  string_lt v.unit_id u.unit_id = false

instance : DecidableRel idLE := fun u v => by
  unfold idLE
  exact inferInstance

/-- Modelled from the spec: the fingerprint parser of fingerprint.rs.  It
fails only when the bookkeeping directory itself cannot be opened (modelled
as none); otherwise every candidate unit directory yields a unit, with an
unresolved toolchain when its record is absent or does not parse, and the
output is sorted by unit_id. -/
def parse_units (parse_record : String → Option String)
    (bookkeeping : Option (List CacheEntry)) : Except String (List CompilationUnit) :=
  match bookkeeping with
  | none => Except.error "cannot open bookkeeping directory"
  | some entries =>
    Except.ok (List.insertionSort idLE (entries.filterMap (unit_of_entry parse_record)))

/-- C7: the parser errors exactly when the bookkeeping directory cannot be
opened and in that case returns no unit list at all; on any readable
directory it succeeds, and every candidate unit directory, however its
record parses, contributes a unit whose toolchain is the parse result
(unresolved when the record is absent or unparseable). -/
theorem parse_units_spec (pr : String → Option String) :
    (∀ b : Option (List CacheEntry),
      (∃ msg, parse_units pr b = Except.error msg) ↔ b = none) ∧
    (∀ l, parse_units pr none ≠ Except.ok l) ∧
    ∀ entries, ∃ us, parse_units pr (some entries) = Except.ok us ∧
      ∀ n r m, CacheEntry.dir n r m ∈ entries →
        ∃ u, u ∈ us ∧ u.unit_id = n ∧ u.last_modified = m ∧
          u.toolchain = r.bind pr := by
  refine ⟨?_, ?_, ?_⟩
  · intro b
    cases b with
    | none => exact iff_of_true ⟨"cannot open bookkeeping directory", rfl⟩ rfl
    | some entries => simp [parse_units]
  · intro l h
    simp [parse_units] at h
  · intro entries
    refine ⟨_, rfl, ?_⟩
    intro n r m hm
    refine ⟨⟨n, m, r.bind pr, ""⟩, ?_, rfl, rfl, rfl⟩
    rw [List.mem_insertionSort]
    exact List.mem_filterMap.2 ⟨CacheEntry.dir n r m, hm, rfl⟩

/-- A record parse that only understands the content "good". -/
def pr0 : String → Option String := fun s => if s == "good" then some "1.70.0" else none

/-- Concrete bookkeeping directory listing: a malformed record, an absent
record, a stray entry and a well-formed record. -/
def entries0 : List CacheEntry :=
  [CacheEntry.dir "u1" (some "bad") 3, CacheEntry.dir "u2" none 4,
    CacheEntry.stray "junk", CacheEntry.dir "u3" (some "good") 5]

/-- C7 witness: the unopenable directory never yields a unit list, while
the concrete listing yields one unit per candidate directory, the
malformed and absent records giving unresolved toolchains. -/
theorem parse_units_spec_witness :
    (∀ l, parse_units pr0 none ≠ Except.ok l) ∧
    parse_units pr0 (some entries0) = Except.ok
      [{ unit_id := "u1", last_modified := 3, toolchain := none, profile := "" },
       { unit_id := "u2", last_modified := 4, toolchain := none, profile := "" },
       { unit_id := "u3", last_modified := 5, toolchain := some "1.70.0", profile := "" }] :=
  ⟨(parse_units_spec pr0).2.1, by rfl⟩

/-- The command line options of src/main.rs.  Present flags are Bool, valued
options are Option String exactly as clap delivers them to main. -/
structure Opts where
  verbose : Bool
  recursive : Bool
  hidden : Bool
  deletion : Bool
  debug_output : Bool
  stamp : Bool
  file : Bool
  installed : Bool
  toolchains : Option String
  maxsize : Option String
  time : Option String
  path : Option String
deriving DecidableEq

/-- Results of the external collaborator calls made by main: the recursive
project walk, the cargo metadata call, and the stamp and timestamp files. -/
structure Env where
  discovered : List String
  metadata_target : Option String
  target_exists : Bool
  stamp_store_ok : Bool
  timestamp_load_ok : Bool
deriving DecidableEq

/-- Observable actions of one invocation of main, in program order. -/
inductive Event where
  | write_stamp (path : String)
  | fs_discover_projects
  | fs_metadata (path : String)
  | load_timestamp (path : String)
  | eval_project (path : String) (deletion : Bool)
  | report_error
  | fatal
deriving DecidableEq

/-- Default to the current invocation path (src/main.rs lines 215-218). -/
def eff_path (o : Opts) : String :=
  o.path.getD "."

/-- Digits of a base-10 numeral folded into a Nat. -/
def digits_to_nat (acc : Nat) : List Char → Nat
  | [] => acc
  | c :: cs => digits_to_nat (acc * 10 + (c.toNat - 48)) cs

/-- Rust str parse into u64: an optional leading plus sign (code 43), then
a nonempty run of digits, rejecting values outside u64 range. -/
def parse_u64 (s : String) : Option Nat :=
  let cs :=
    match s.data with
    | c :: rest => if c.toNat = 43 then rest else c :: rest
    | [] => []
  if cs.isEmpty then none
  else if cs.all Char.isDigit then
    let v := digits_to_nat 0 cs
    if v < 18446744073709551616 then some v else none
  else none

/-- Path collection of src/main.rs lines 229-242: the recursive walk, or one
cargo metadata call whose target directory must exist; on failure an error
is reported and main returns with no paths. -/
def compute_paths (o : Opts) (e : Env) : Option (List String) × List Event :=
  if o.recursive then (some e.discovered, [Event.fs_discover_projects])
  else
    match e.metadata_target with
    | some out =>
      if e.target_exists then (some [out], [Event.fs_metadata (eff_path o)])
      else (none, [Event.fs_metadata (eff_path o), Event.report_error])
    | none => (none, [Event.fs_metadata (eff_path o), Event.report_error])

/-- Policy dispatch of src/main.rs lines 245-320: toolchain branch, then
maxsize branch (parse failure reports an error and returns), then the
file/time branch (missing or unparseable time panics, a bad timestamp file
panics), each looping over the collected project paths. -/
def policy_trace (o : Opts) (e : Env) (paths : List String) : List Event :=
  if o.installed || o.toolchains.isSome then
    paths.map (fun p => Event.eval_project p o.deletion)
  else
    match o.maxsize with
    | some s =>
      match parse_u64 s with
      | none => [Event.report_error]
      | some _ => paths.map (fun p => Event.eval_project p o.deletion)
    | none =>
      if o.file then
        if e.timestamp_load_ok then
          Event.load_timestamp (eff_path o) ::
            paths.map (fun p => Event.eval_project p o.deletion)
        else [Event.load_timestamp (eff_path o), Event.fatal]
      else
        match o.time with
        | none => [Event.fatal]
        | some t =>
          match parse_u64 t with
          | none => [Event.fatal]
          | some _ => paths.map (fun p => Event.eval_project p o.deletion)

/-- The sequence of observable actions of main (src/main.rs lines 208-320):
the stamp branch returns right after writing the timestamp file; otherwise
paths are collected and then exactly one policy branch runs. -/
def main_trace (o : Opts) (e : Env) : List Event :=
  if o.stamp then
    if e.stamp_store_ok then [Event.write_stamp (eff_path o)]
    else [Event.write_stamp (eff_path o), Event.report_error]
  else
    match compute_paths o e with
    | (none, evs) => evs
    | (some paths, evs) => evs ++ policy_trace o e paths

theorem compute_paths_no_eval (o : Opts) (e : Env) :
    ∀ p d, Event.eval_project p d ∉ (compute_paths o e).2 := by
  intro p d
  unfold compute_paths
  by_cases hr : o.recursive
  · simp [hr]
  · cases hmt : e.metadata_target with
    | none => simp [hr, hmt]
    | some out => by_cases ht : e.target_exists <;> simp [hr, hmt, ht]

theorem compute_paths_none_error (o : Opts) (e : Env) :
    (compute_paths o e).1 = none → Event.report_error ∈ (compute_paths o e).2 := by
  unfold compute_paths
  by_cases hr : o.recursive
  · simp [hr]
  · cases hmt : e.metadata_target with
    | none => simp [hr, hmt]
    | some out => by_cases ht : e.target_exists <;> simp [hr, hmt, ht]

/-- C8 counterexample: with an unparseable maxsize and the recursive flag,
main runs the project-discovery filesystem walk before it notices the bad
budget, so the run does not fail before any filesystem access. -/
theorem invalid_budget_counterexample :
    parse_u64 "12a" = none ∧
    main_trace
      { verbose := false, recursive := true, hidden := false, deletion := false,
        debug_output := false, stamp := false, file := false, installed := false,
        toolchains := none, maxsize := some "12a", time := none, path := none }
      { discovered := ["proj"], metadata_target := none, target_exists := false,
        stamp_store_ok := true, timestamp_load_ok := true } =
      [Event.fs_discover_projects, Event.report_error] := by
  constructor <;> rfl

/-- C8 amended: with an unparseable size budget, or with an unparseable
cutoff duration, the run fails (reports an error, or panics) before any
project is evaluated or deleted — although project discovery, which does
access the filesystem, has already run. -/
theorem invalid_input_fails_before_eval (o : Opts) (e : Env)
    (hst : o.stamp = false) (hin : o.installed = false) (htc : o.toolchains = none) :
    (∀ s, o.maxsize = some s → parse_u64 s = none →
      Event.report_error ∈ main_trace o e ∧
        ∀ p d, Event.eval_project p d ∉ main_trace o e) ∧
    (o.maxsize = none → o.file = false →
      ∀ t, o.time = some t → parse_u64 t = none →
        (Event.report_error ∈ main_trace o e ∨ Event.fatal ∈ main_trace o e) ∧
          ∀ p d, Event.eval_project p d ∉ main_trace o e) := by
  have hmain0 : ∀ evs, compute_paths o e = (none, evs) → main_trace o e = evs := by
    intro evs h
    unfold main_trace
    rw [if_neg (by simp [hst]), h]
  have hmain1 : ∀ paths evs, compute_paths o e = (some paths, evs) →
      main_trace o e = evs ++ policy_trace o e paths := by
    intro paths evs h
    unfold main_trace
    rw [if_neg (by simp [hst]), h]
  constructor
  · intro s hms hps
    have hpol : ∀ paths, policy_trace o e paths = [Event.report_error] := by
      intro paths
      simp [policy_trace, hin, htc, hms, hps]
    rcases hcp : compute_paths o e with ⟨op, evs⟩
    have h2 := compute_paths_no_eval o e
    rw [hcp] at h2
    cases op with
    | none =>
      have h1 := compute_paths_none_error o e (by rw [hcp])
      rw [hcp] at h1
      rw [hmain0 evs hcp]
      exact ⟨h1, fun p d => h2 p d⟩
    | some paths =>
      rw [hmain1 paths evs hcp, hpol paths]
      constructor
      · simp
      · intro p d
        simp only [List.mem_append, List.mem_singleton]
        rintro (h | h)
        · exact h2 p d h
        · simp at h
  · intro hms hf t hts hpt
    have hpol : ∀ paths, policy_trace o e paths = [Event.fatal] := by
      intro paths
      simp [policy_trace, hin, htc, hms, hf, hts, hpt]
    rcases hcp : compute_paths o e with ⟨op, evs⟩
    have h2 := compute_paths_no_eval o e
    rw [hcp] at h2
    cases op with
    | none =>
      have h1 := compute_paths_none_error o e (by rw [hcp])
      rw [hcp] at h1
      rw [hmain0 evs hcp]
      exact ⟨Or.inl h1, fun p d => h2 p d⟩
    | some paths =>
      rw [hmain1 paths evs hcp, hpol paths]
      constructor
      · simp
      · intro p d
        simp only [List.mem_append, List.mem_singleton]
        rintro (h | h)
        · exact h2 p d h
        · simp at h

/-- C8 witness: the amended statement evaluated on the unparseable budget
"12a" and on the unparseable cutoff "2d" with a valid single project. -/
theorem invalid_input_fails_before_eval_witness :
    (Event.report_error ∈ main_trace
      { verbose := false, recursive := false, hidden := false, deletion := true,
        debug_output := false, stamp := false, file := false, installed := false,
        toolchains := none, maxsize := some "12a", time := none, path := none }
      { discovered := [], metadata_target := some "t", target_exists := true,
        stamp_store_ok := true, timestamp_load_ok := true } ∧
      ∀ p d, Event.eval_project p d ∉ main_trace
        { verbose := false, recursive := false, hidden := false, deletion := true,
          debug_output := false, stamp := false, file := false, installed := false,
          toolchains := none, maxsize := some "12a", time := none, path := none }
        { discovered := [], metadata_target := some "t", target_exists := true,
          stamp_store_ok := true, timestamp_load_ok := true }) ∧
    ((Event.report_error ∈ main_trace
      { verbose := false, recursive := false, hidden := false, deletion := true,
        debug_output := false, stamp := false, file := false, installed := false,
        toolchains := none, maxsize := none, time := some "2d", path := none }
      { discovered := [], metadata_target := some "t", target_exists := true,
        stamp_store_ok := true, timestamp_load_ok := true } ∨
      Event.fatal ∈ main_trace
        { verbose := false, recursive := false, hidden := false, deletion := true,
          debug_output := false, stamp := false, file := false, installed := false,
          toolchains := none, maxsize := none, time := some "2d", path := none }
        { discovered := [], metadata_target := some "t", target_exists := true,
          stamp_store_ok := true, timestamp_load_ok := true }) ∧
      ∀ p d, Event.eval_project p d ∉ main_trace
        { verbose := false, recursive := false, hidden := false, deletion := true,
          debug_output := false, stamp := false, file := false, installed := false,
          toolchains := none, maxsize := none, time := some "2d", path := none }
        { discovered := [], metadata_target := some "t", target_exists := true,
          stamp_store_ok := true, timestamp_load_ok := true }) :=
  ⟨(invalid_input_fails_before_eval _ _ rfl rfl rfl).1 "12a" rfl (by rfl),
    (invalid_input_fails_before_eval _ _ rfl rfl rfl).2 rfl rfl "2d" rfl (by rfl)⟩

/-- C10: whenever the stamp option is present, main writes the timestamp
file at the given path and returns at once: the trace holds that write and
at most an error report, so no project discovery, no policy evaluation and
no deletion happen, whatever the other options say. -/
theorem stamp_short_circuit (o : Opts) (e : Env) (h : o.stamp = true) :
    Event.write_stamp (eff_path o) ∈ main_trace o e ∧
    ∀ ev ∈ main_trace o e,
      ev = Event.write_stamp (eff_path o) ∨ ev = Event.report_error := by
  unfold main_trace
  rw [if_pos h]
  by_cases hs : e.stamp_store_ok <;> simp [hs]

/-- C10 witness: with the stamp and delete flags both set, the whole trace
is the single stamp write at the given path. -/
theorem stamp_short_circuit_witness :
    main_trace
      { verbose := false, recursive := true, hidden := false, deletion := true,
        debug_output := false, stamp := true, file := false, installed := false,
        toolchains := none, maxsize := none, time := none, path := some "ts" }
      { discovered := ["proj"], metadata_target := some "t", target_exists := true,
        stamp_store_ok := true, timestamp_load_ok := true } =
      [Event.write_stamp "ts"] ∧
    ∀ ev ∈ main_trace
      { verbose := false, recursive := true, hidden := false, deletion := true,
        debug_output := false, stamp := true, file := false, installed := false,
        toolchains := none, maxsize := none, time := none, path := some "ts" }
      { discovered := ["proj"], metadata_target := some "t", target_exists := true,
        stamp_store_ok := true, timestamp_load_ok := true },
      ev = Event.write_stamp "ts" ∨ ev = Event.report_error :=
  ⟨by rfl,
    (stamp_short_circuit
      { verbose := false, recursive := true, hidden := false, deletion := true,
        debug_output := false, stamp := true, file := false, installed := false,
        toolchains := none, maxsize := none, time := none, path := some "ts" }
      { discovered := ["proj"], metadata_target := some "t", target_exists := true,
        stamp_store_ok := true, timestamp_load_ok := true } rfl).2⟩

/-- A filesystem subtree as seen by the recursive project walk. -/
inductive FsTree where
  | file (name : String)
  | dir (name : String) (children : List FsTree)

/-- Unix style hidden entry, name starting with a dot (src/main.rs is_hidden). -/
def is_hidden (name : String) : Bool :=
  name.startsWith "."

/-- Whether the first path is the second path or one of its ancestors,
component-wise (Rust Path ancestors plus contains). -/
def is_ancestor_of : List String → List String → Bool
  | [], _ => true
  | _ :: _, [] => false
  | a :: as, b :: bs => a == b && is_ancestor_of as bs

/-- The ancestor check of src/main.rs line 91: some already collected
target path is the entry path or an ancestor of it. -/
def ancestor_hit (q : List String) (acc : List (List String)) : Bool :=
  acc.any (fun t => is_ancestor_of t q)

/-- Ordered set insertion, the model of BTreeSet insert under the
component-wise path order. -/
def insertPath (x : List String) : List (List String) → List (List String)
  | [] => [x]
  | y :: ys =>
    if x < y then x :: y :: ys
    else if y < x then y :: insertPath x ys
    else y :: ys

theorem mem_insertPath (x b : List String) (l : List (List String)) :
    b ∈ insertPath x l → b = x ∨ b ∈ l := by
  induction l with
  | nil => simp [insertPath]
  | cons y ys ih =>
    by_cases hxy : x < y
    · simp only [insertPath, if_pos hxy, List.mem_cons]
      tauto
    · by_cases hyx : y < x
      · simp only [insertPath, if_neg hxy, if_pos hyx, List.mem_cons]
        rintro (h | h)
        · exact Or.inr (Or.inl h)
        · rcases ih h with h2 | h2
          · exact Or.inl h2
          · exact Or.inr (Or.inr h2)
      · simp only [insertPath, if_neg hxy, if_neg hyx, List.mem_cons]
        tauto

theorem insertPath_sorted (x : List String) (l : List (List String))
    (h : List.Sorted (· < ·) l) : List.Sorted (· < ·) (insertPath x l) := by
  induction l with
  | nil => simp [insertPath]
  | cons y ys ih =>
    rw [List.sorted_cons] at h
    obtain ⟨hy, hys⟩ := h
    by_cases hxy : x < y
    · simp only [insertPath, if_pos hxy]
      rw [List.sorted_cons]
      refine ⟨?_, List.sorted_cons.2 ⟨hy, hys⟩⟩
      intro b hb
      rcases List.mem_cons.1 hb with rfl | hb2
      · exact hxy
      · exact lt_trans hxy (hy b hb2)
    · by_cases hyx : y < x
      · simp only [insertPath, if_neg hxy, if_pos hyx]
        rw [List.sorted_cons]
        refine ⟨?_, ih hys⟩
        intro b hb
        rcases mem_insertPath x b ys hb with rfl | hb2
        · exact hyx
        · exact hy b hb2
      · simp only [insertPath, if_neg hxy, if_neg hyx]
        exact List.sorted_cons.2 ⟨hy, hys⟩

/-- The walk of src/main.rs find_cargo_projects over the entries below one
directory, threading the collected target-path set.  Hidden directories
are skipped (unless the hidden flag is set), directories below an already
collected target path are skipped, and when a Cargo.toml resolves to an
existing target directory that directory is inserted and the remaining
siblings are skipped (for a file entry) or only its own contents are
skipped (for a directory entry).  The oracle stands for the external
cargo metadata call of is_cargo_root. -/
def walk_entries (inc : Bool) (oracle : List String → Option (List String)) :
    List String → List FsTree → List (List String) → List (List String)
  | _, [], acc => acc
  | p, FsTree.file n :: rest, acc =>
    if n == "Cargo.toml" then
      match oracle (p ++ [n]) with
      | some tgt => insertPath tgt acc
      | none => walk_entries inc oracle p rest acc
    else walk_entries inc oracle p rest acc
  | p, FsTree.dir n ch :: rest, acc =>
    if !inc && is_hidden n then walk_entries inc oracle p rest acc
    else if ancestor_hit (p ++ [n]) acc then walk_entries inc oracle p rest acc
    else if n == "Cargo.toml" then
      match oracle (p ++ [n]) with
      | some tgt => walk_entries inc oracle p rest (insertPath tgt acc)
      | none => walk_entries inc oracle p rest (walk_entries inc oracle (p ++ [n]) ch acc)
    else walk_entries inc oracle p rest (walk_entries inc oracle (p ++ [n]) ch acc)
termination_by _ l _ => sizeOf l

/-- src/main.rs find_cargo_projects: walk the tree below the root and
return the collected target directories as an ordered list. -/
def find_cargo_projects (root : List String) (children : List FsTree)
    (include_hidden : Bool) (oracle : List String → Option (List String)) :
    List (List String) :=
  walk_entries include_hidden oracle root children []

theorem walk_entries_sorted (inc : Bool) (oracle : List String → Option (List String)) :
    ∀ (p : List String) (l : List FsTree) (acc : List (List String)),
      List.Sorted (· < ·) acc →
      List.Sorted (· < ·) (walk_entries inc oracle p l acc) := by
  intro p l acc
  induction p, l, acc using walk_entries.induct inc oracle with
  | case1 x acc =>
    intro hacc
    rw [walk_entries]
    exact hacc
  | case2 p n rest acc hn tgt horacle =>
    intro hacc
    rw [walk_entries]
    simp only [hn, if_true, horacle]
    exact insertPath_sorted tgt acc hacc
  | case3 p n rest acc hn horacle ih =>
    intro hacc
    rw [walk_entries]
    simp only [hn, if_true, horacle]
    exact ih hacc
  | case4 p n rest acc hn ih =>
    intro hacc
    rw [walk_entries]
    simp [hn]
    exact ih hacc
  | case5 p n ch rest acc hh ih =>
    intro hacc
    rw [walk_entries]
    simp [hh]
    exact ih hacc
  | case6 p n ch rest acc hh hanc ih =>
    intro hacc
    rw [walk_entries]
    simp [hh, hanc]
    exact ih hacc
  | case7 p n ch rest acc hh hanc hn tgt horacle ih =>
    intro hacc
    rw [walk_entries]
    simp [hh, hanc, hn, horacle]
    exact ih (insertPath_sorted tgt acc hacc)
  | case8 p n ch rest acc hh hanc hn horacle ih1 ih2 =>
    intro hacc
    rw [walk_entries]
    simp [hh, hanc, hn, horacle]
    exact ih2 (ih1 hacc)
  | case9 p n ch rest acc hh hanc hn ih1 ih2 =>
    intro hacc
    rw [walk_entries]
    simp [hh, hanc, hn]
    exact ih2 (ih1 hacc)

/-- C9: for every root, tree layout, hidden flag and metadata oracle, the
list of target directories returned by the recursive project discovery is
strictly sorted in ascending path order and therefore holds no duplicate
path. -/
theorem find_cargo_projects_sorted_nodup (root : List String) (children : List FsTree)
    (include_hidden : Bool) (oracle : List String → Option (List String)) :
    List.Sorted (· < ·) (find_cargo_projects root children include_hidden oracle) ∧
    (find_cargo_projects root children include_hidden oracle).Nodup :=
  have hs : List.Sorted (· < ·) (find_cargo_projects root children include_hidden oracle) :=
    walk_entries_sorted include_hidden oracle root children [] (List.sorted_nil)
  ⟨hs, hs.nodup⟩

end CargoSweep
